import Mathlib

/-
Verification of the rule engines of app.py (Streamlit decision-tree app
for an accounting firm): the segmentation engine `infer_segment` and the
offer engine `compute_offers`, together with the pricing catalog
`PRICING_TABLE` they share.  The embedding follows the source line by
line; imperative accumulation is rendered as ordered list concatenation
and an explicit fold, Python dict lookup as association-list lookup, and
the possible `KeyError` of `PRICING_TABLE[code]` as an `Option`.
-/

namespace ArbreDecision

/-- Client profile record: dataclass `ClientProfile`, app.py lines 19-36.
`nb_salaries` is a natural number: the input form constrains it to the
integers 0..1000 (app.py line 308), and the engines may assume
well-formed input. -/
structure ClientProfile where
  nom_client : String
  secteur : String
  nb_salaries : Nat
  presence_cadres : Bool
  type_contrats : String
  rse_sensible : Bool
  rse_pollution : String
  coaching_client : Bool
  patrimoine_dirigeant : String
  particulier_fiscal : List String
  caisse : Bool
  patrimoniale : Bool
  digitalisation : String
  proche_retraite : String
  succession_envisagee : Bool
  clients_particuliers_avec_tva : Bool
deriving DecidableEq, Repr

/-- One pricing-catalog entry: label and price (app.py lines 38-58). -/
structure OfferInfo where
  libelle : String
  prix : Nat
deriving DecidableEq, Repr

/-- Lookup in an association list with string keys: models Python dict
indexing.  The dicts modelled here keep unique keys in insertion order. -/
def assocLookup {α : Type} : List (String × α) → String → Option α
  | [], _ => none
  | (k, v) :: rest, key => if k = key then some v else assocLookup rest key

/-- The pricing catalog `PRICING_TABLE`, app.py lines 38-58. -/
def PRICING_TABLE : List (String × OfferInfo) :=
  [ ("social_basique", ⟨"Paie & obligations sociales - Pack Essentiel", 180⟩),
    ("social_plus", ⟨"Paie & RH - Pack Plus (audit + procédures)", 350⟩),
    ("social_premium", ⟨"Paie & RH - Pack Premium (SIRH + KPI sociaux)", 550⟩),
    ("rse_diag", ⟨"Diagnostic RSE & plan d'actions", 1200⟩),
    ("rse_reporting", ⟨"Reporting RSE/CSRD adapté TPE/PME", 450⟩),
    ("coaching_light", ⟨"Coaching dirigeant - Pack Starter (1h/mois)", 190⟩),
    ("coaching_pro", ⟨"Coaching dirigeant - Pack Pro (2h/mois + ateliers)", 390⟩),
    ("patrimoine_base", ⟨"Bilan patrimonial dirigeant", 900⟩),
    ("patrimoine_avance", ⟨"Ingénierie patrimoniale avancée (holdings/SCI/IF)", 1800⟩),
    ("fiscal_part", ⟨"Traitements fiscaux particuliers (notes spécifiques)", 380⟩),
    ("tresorerie", ⟨"Cash management & prévisionnels de trésorerie", 320⟩),
    ("digital_start", ⟨"Digitalisation - Starter (outils facturation, banque)", 150⟩),
    ("digital_full", ⟨"Digitalisation - Full (OCR, Hub, flux API)", 420⟩),
    ("btp_pack", ⟨"Pack BTP (suivi chantiers, retenues, DGD)", 350⟩),
    ("gestion_budget", ⟨"Tableaux de bord & budget (mensuel)", 280⟩),
    ("revue_qualite", ⟨"Revue Qualité comptable & fiscale (trimestrielle)", 240⟩),
    ("succession", ⟨"Anticipation transmission / pacte Dutreil (pré-étude)", 1200⟩),
    ("retraite", ⟨"Bilan retraite & optimisation (étude complète)", 750⟩),
    ("international", ⟨"International (TVA/DEB/DES/EMEA sanity check)", 650⟩) ]

/-- Result of `infer_segment` (app.py lines 138-142). -/
structure SegmentResult where
  segment : String
  risk_flags : List String
  compliance_intensity : String
deriving DecidableEq, Repr

/-- The `segment` tag list built by `infer_segment` (app.py lines 77-93):
exactly one size tag (lines 82-87), then the "BTP" sector tag when the
sector is BTP (line 91).  No other statement appends to `segment`. -/
def segmentTags (p : ClientProfile) : List String :=
  (if p.nb_salaries = 0 ∨ p.type_contrats = "Aucun salarié" then
      ["Solo/Très petite structure"]
    else if p.nb_salaries < 11 then ["TPE < 11"]
    else ["PME ≥ 11"]) ++
  (if p.secteur = "BTP" then ["BTP"] else [])

/-- The `risk_flags` list built by `infer_segment` (app.py lines 78-136),
in source order: each conditional `append` becomes a conditional
singleton, concatenated in program order. -/
def riskFlags (p : ClientProfile) : List String :=
  (if p.secteur = "BTP" then ["Gestion des chantiers et retenues de garantie"] else []) ++
  (if p.secteur = "E-commerce" then ["TVA OSS/IOSS et plateformes"] else []) ++
  (if p.secteur = "Industrie" then ["Stocks et immo complexes"] else []) ++
  (if 0 < p.nb_salaries then
      (if p.presence_cadres then ["Cadres & forfait jours"] else []) ++
      (if 11 ≤ p.nb_salaries then ["CSE / obligations sociales renforcées"] else [])
    else []) ++
  (if p.rse_sensible then
      (if p.rse_pollution = "Importante" then ["Enjeux environnementaux critiques"]
        else if p.rse_pollution = "Moyenne" then ["Suivi empreinte & conformité environnementale"]
        else [])
    else []) ++
  (if p.digitalisation = "Pas informatique" then ["Faible digitalisation (risque d'erreurs et coûts)"]
    else if p.digitalisation = "Informatique rudimentaire" then ["Digitalisation partielle à structurer"]
    else []) ++
  (if p.proche_retraite = "À 5 ans" ∨ p.proche_retraite = "< 2 ans" then
      ["Horizon retraite à anticiper"] else []) ++
  (if p.succession_envisagee then ["Projet de succession / transmission"] else []) ++
  (if "International" ∈ p.particulier_fiscal then
      ["Flux internationaux (prix de transfert/TVA)"] else []) ++
  (if "Holding" ∈ p.particulier_fiscal ∨ "SCI" ∈ p.particulier_fiscal then
      ["Groupe / structuration patrimoniale"] else []) ++
  (if p.clients_particuliers_avec_tva then ["Risque TVA B2C (règles spécifiques)"] else [])

/-- The `compliance_intensity` scalar of `infer_segment`: initialised to
"Standard" (line 79) and assigned "Renforcée" at lines 93 (sector BTP),
105 (inside `nb_salaries > 0`, when `nb_salaries >= 11`) and 130
("International" among the fiscal particularities).  Last write wins;
every write is "Renforcée". -/
def complianceIntensity (p : ClientProfile) : String :=
  let ci := "Standard"
  let ci := if p.secteur = "BTP" then "Renforcée" else ci
  let ci := if 0 < p.nb_salaries ∧ 11 ≤ p.nb_salaries then "Renforcée" else ci
  let ci := if "International" ∈ p.particulier_fiscal then "Renforcée" else ci
  ci

/-- Segmentation engine `infer_segment`, app.py lines 75-142.  The
returned `segment` string joins the tag list with " | ", or is
"Standard" when the list is empty (line 139). -/
def infer_segment (p : ClientProfile) : SegmentResult :=
  { segment :=
      if segmentTags p = [] then "Standard"
      else String.intercalate " | " (segmentTags p)
    risk_flags := riskFlags p
    compliance_intensity := complianceIntensity p }

/-- One entry of the offer list built by `compute_offers`:
`{"code": ..., "libelle": ..., "prix": ...}` (app.py line 151). -/
structure OfferEntry where
  code : String
  libelle : String
  prix : Nat
deriving DecidableEq, Repr

/-- The mutable accumulators of `compute_offers` (app.py lines 146-147):
the raw offer list and the label-keyed rationale dict. -/
structure OfferState where
  offers : List OfferEntry
  rationales : List (String × List String)
deriving DecidableEq, Repr

/-- In-place append to the list held at `key`: models the dict mutation
`dic[key].append(value)` when `key` is present (dict keys are unique, so
only the one matching entry changes). -/
def appendAt (key value : String) : List (String × List String) → List (String × List String)
  | [] => []
  | (k, l) :: rest =>
      if k = key then (k, l ++ [value]) :: rest else (k, l) :: appendAt key value rest

/-- Helper `safe_add`, app.py lines 70-73: append `value` to the list at
`key`, creating the list when the key is absent (new keys go to the end,
as in a Python dict). -/
def safe_add (dic : List (String × List String)) (key : String) (value : String) :
    List (String × List String) :=
  match assocLookup dic key with
  | none => dic ++ [(key, [value])]
  | some _ => appendAt key value dic

/-- Inner helper `add_offer`, app.py lines 149-152: look the code up in
`PRICING_TABLE` (a missing code raises `KeyError`, modelled as `none`),
append the priced entry to the raw list and record the justification
under the catalog label. -/
def add_offer (st : OfferState) (code : String) (reason : String) : Option OfferState :=
  match assocLookup PRICING_TABLE code with
  | none => none
  | some info =>
      some ⟨st.offers ++ [⟨code, info.libelle, info.prix⟩],
            safe_add st.rationales info.libelle reason⟩

/-- Social / HR rules of `compute_offers`, app.py lines 154-161: the
(code, justification) pairs they emit, in program order. -/
def rules_social (p : ClientProfile) : List (String × String) :=
  if 0 < p.nb_salaries then
    (if 11 ≤ p.nb_salaries ∨ p.presence_cadres then
        [("social_plus", "≥ 11 salariés et/ou présence de cadres")]
      else [("social_basique", "Paie et obligations sociales standard")]) ++
    (if 25 ≤ p.nb_salaries then
        [("social_premium", "Effectif significatif → SIRH & KPI sociaux")]
      else [])
  else []

/-- RSE rules, app.py lines 163-167. -/
def rules_rse (p : ClientProfile) : List (String × String) :=
  if p.rse_sensible then
    [("rse_diag", "Client sensible RSE → diagnostic & plan d'actions")] ++
    (if p.rse_pollution = "Moyenne" ∨ p.rse_pollution = "Importante" then
        [("rse_reporting", "Suivi des indicateurs RSE (empreinte, énergie, déchets)")]
      else [])
  else []

/-- Coaching rules, app.py lines 169-173. -/
def rules_coaching (p : ClientProfile) : List (String × String) :=
  (if p.coaching_client ∧ p.patrimoine_dirigeant = "Modeste" then
      [("coaching_light", "Accompagnement dirigeant régulier (starter)")]
    else []) ++
  (if p.coaching_client ∧ p.patrimoine_dirigeant = "Important" then
      [("coaching_pro", "Accompagnement renforcé pour enjeux stratégiques")]
    else [])

/-- Patrimonial rules, app.py lines 175-179. -/
def rules_patrimoine (p : ClientProfile) : List (String × String) :=
  (if p.patrimoniale ∨ p.patrimoine_dirigeant = "Important" then
      [("patrimoine_base", "Besoin patrimonial identifié")]
    else []) ++
  (if ("Holding" ∈ p.particulier_fiscal ∨ "SCI" ∈ p.particulier_fiscal) ∧
      (p.patrimoniale ∨ p.patrimoine_dirigeant = "Important") then
      [("patrimoine_avance", "Structuration groupe / immo patrimonial")]
    else [])

/-- Fiscal-particularity rules, app.py lines 181-185. -/
def rules_fiscal (p : ClientProfile) : List (String × String) :=
  if 0 < p.particulier_fiscal.length then
    [("fiscal_part", "Cas fiscaux spécifiques à documenter")] ++
    (if "International" ∈ p.particulier_fiscal then
        [("international", "Flux intracommunautaires / export → contrôles dédiés")]
      else [])
  else []

/-- Cash / management rules, app.py lines 187-191: a conditional
`tresorerie` offer, then the two unconditional offers. -/
def rules_cash (p : ClientProfile) : List (String × String) :=
  (if p.caisse ∨ p.secteur = "E-commerce" ∨ p.secteur = "Industrie" ∨ p.secteur = "BTP" then
      [("tresorerie", "Volatilité de trésorerie / besoin de pilotage")]
    else []) ++
  [("gestion_budget", "Tableaux de bord et budget mensuel utiles à tout profil PME/TPE"),
   ("revue_qualite", "Sécuriser la qualité comptable et fiscale")]

/-- Digitalisation rules, app.py lines 193-197. -/
def rules_digital (p : ClientProfile) : List (String × String) :=
  if p.digitalisation = "Pas informatique" then
    [("digital_start", "Mettre en place la base des outils digitaux")]
  else if p.digitalisation = "Informatique rudimentaire" then
    [("digital_full", "Structurer et automatiser les flux (OCR/API/Banque)")]
  else []

/-- Sector-pack rule, app.py lines 199-201. -/
def rules_secteur (p : ClientProfile) : List (String × String) :=
  if p.secteur = "BTP" then
    [("btp_pack", "Spécificités chantiers (retenues, situations, DGD)")]
  else []

/-- Transmission / retirement rules, app.py lines 203-207. -/
def rules_retraite (p : ClientProfile) : List (String × String) :=
  (if p.proche_retraite = "À 5 ans" ∨ p.proche_retraite = "< 2 ans" then
      [("retraite", "Horizon de départ → bilan retraite & options")]
    else []) ++
  (if p.succession_envisagee then
      [("succession", "Projet de transmission → pré-étude Dutreil/holding")]
    else [])

/-- All (code, justification) pairs emitted by the rules of
`compute_offers` for profile `p`, in the evaluation order of app.py
lines 154-207. -/
def firedRules (p : ClientProfile) : List (String × String) :=
  rules_social p ++ rules_rse p ++ rules_coaching p ++ rules_patrimoine p ++
  rules_fiscal p ++ rules_cash p ++ rules_digital p ++ rules_secteur p ++
  rules_retraite p

/-- Apply `add_offer` to each emitted (code, justification) pair in
order; `none` as soon as one lookup fails. -/
def runRules : List (String × String) → OfferState → Option OfferState
  | [], st => some st
  | (code, reason) :: rest, st =>
      match add_offer st code reason with
      | none => none
      | some st2 => runRules rest st2

/-- Deduplication pass of `compute_offers`, app.py lines 209-215:
iterate the raw offer list, keep only the first occurrence of each
code.  `seen` holds the codes already kept, `acc` the output so far. -/
def dedup_pass : List String → List OfferEntry → List OfferEntry → List OfferEntry
  | _, acc, [] => acc
  | seen, acc, o :: rest =>
      if o.code ∈ seen then dedup_pass seen acc rest
      else dedup_pass (o.code :: seen) (acc ++ [o]) rest

/-- Result of `compute_offers` (app.py lines 218-222). -/
structure OfferResult where
  offers : List OfferEntry
  rationales : List (String × List String)
  total_ht : Nat
deriving DecidableEq, Repr

/-- Offer engine `compute_offers`, app.py lines 144-222: evaluate the
rules in order against an empty state, deduplicate by code keeping first
occurrences, and sum the prices over the deduplicated list.  `none`
models the `KeyError` a catalog lookup of an unknown code would raise. -/
def compute_offers (p : ClientProfile) : Option OfferResult :=
  match runRules (firedRules p) ⟨[], []⟩ with
  | none => none
  | some st =>
      let unique_offers := dedup_pass [] [] st.offers
      some ⟨unique_offers, st.rationales,
            (unique_offers.map (fun o => o.prix)).sum⟩

/-- The offer entry `add_offer` appends for `code`: the catalog label and
price when the code is in the catalog, a dummy entry otherwise (never
reached for the shipped catalog, claim C8). -/
def entryOf (code : String) : OfferEntry :=
  match assocLookup PRICING_TABLE code with
  | some info => ⟨code, info.libelle, info.prix⟩
  | none => ⟨code, "", 0⟩

/-- Catalog price of a code (0 for a code outside the catalog). -/
def catalogPrice (code : String) : Nat :=
  match assocLookup PRICING_TABLE code with
  | some info => info.prix
  | none => 0

/-- The codes the offer rules can emit, listed in rule order: each rule
group contributes a contiguous block. -/
def ruleCodes : List String :=
  ["social_plus", "social_basique", "social_premium", "rse_diag", "rse_reporting",
   "coaching_light", "coaching_pro", "patrimoine_base", "patrimoine_avance",
   "fiscal_part", "international", "tresorerie", "gestion_budget", "revue_qualite",
   "digital_start", "digital_full", "btp_pack", "retraite", "succession"]

/-- The three size-classification tags of `infer_segment`
(app.py lines 82-87). -/
def sizeLabels : List String :=
  ["Solo/Très petite structure", "TPE < 11", "PME ≥ 11"]

/-- A label has at least one recorded justification in a rationale dict. -/
def hasJust (dic : List (String × List String)) (lab : String) : Prop :=
  ∃ l, assocLookup dic lab = some l ∧ l ≠ []

/-- The offer result the UI reads from `compute_offers`; the default is
never reached for the shipped catalog (claim C8). -/
def offerResultOf (p : ClientProfile) : OfferResult :=
  (compute_offers p).getD ⟨[], [], 0⟩

/-- The codes of the deduplicated offer list returned for `p`. -/
def offersCodes (p : ClientProfile) : List String :=
  (offerResultOf p).offers.map (fun o => o.code)

/-- Variant of `compute_offers` described by claim C10: return the raw
(pre-deduplication) offer list with the total summed over it, skipping
the deduplication pass. -/
def compute_offers_raw (p : ClientProfile) : Option OfferResult :=
  match runRules (firedRules p) ⟨[], []⟩ with
  | none => none
  | some st => some ⟨st.offers, st.rationales, (st.offers.map (fun o => o.prix)).sum⟩

/-- Scenario A profile of the spec (claim C6): no employees, sector
Services, every toggle off, no fiscal particularity, rudimentary
digitalisation. -/
def profileA : ClientProfile :=
  { nom_client := "Client DEMO", secteur := "Services", nb_salaries := 0,
    presence_cadres := false, type_contrats := "Aucun salarié",
    rse_sensible := false, rse_pollution := "Faible/Non",
    coaching_client := false, patrimoine_dirigeant := "Modeste",
    particulier_fiscal := [], caisse := false, patrimoniale := false,
    digitalisation := "Informatique rudimentaire", proche_retraite := "Loin",
    succession_envisagee := false, clients_particuliers_avec_tva := false }

/-- Predicate: the code is one of the two exclusive social offers
(claim C5). -/
def inSocialPair (c : String) : Bool := c == "social_basique" || c == "social_plus"

/-- Predicate: the code is one of the two exclusive coaching offers
(claim C5). -/
def inCoachingPair (c : String) : Bool := c == "coaching_light" || c == "coaching_pro"

/-- Predicate: the code is one of the two exclusive digitalisation
offers (claim C5). -/
def inDigitalPair (c : String) : Bool := c == "digital_start" || c == "digital_full"

/-! Basic facts about the catalog lookup and `entryOf`. -/

theorem entryOf_code (c : String) : (entryOf c).code = c := by
  unfold entryOf; cases assocLookup PRICING_TABLE c <;> rfl

theorem entryOf_prix (c : String) : (entryOf c).prix = catalogPrice c := by
  unfold entryOf catalogPrice; cases assocLookup PRICING_TABLE c <;> rfl

theorem ruleCodes_in_table : ∀ c ∈ ruleCodes, (assocLookup PRICING_TABLE c).isSome := by
  decide

theorem ruleCodes_nodup : ruleCodes.Nodup := by decide

/-! Association-list lemmas for `safe_add` (the rationale dict). -/

theorem assocLookup_append_none {α : Type} {l1 : List (String × α)} (l2 : List (String × α))
    {k : String} (h : assocLookup l1 k = none) :
    assocLookup (l1 ++ l2) k = assocLookup l2 k := by
  induction l1 with
  | nil => simp [assocLookup]
  | cons kv rest ih =>
      obtain ⟨k2, v⟩ := kv
      by_cases hk : k2 = k
      · simp [assocLookup, hk] at h
      · simp only [assocLookup, List.cons_append, if_neg hk] at h ⊢
        exact ih h

theorem assocLookup_append_some {α : Type} {l1 : List (String × α)} (l2 : List (String × α))
    {k : String} {v : α} (h : assocLookup l1 k = some v) :
    assocLookup (l1 ++ l2) k = some v := by
  induction l1 with
  | nil => simp [assocLookup] at h
  | cons kv rest ih =>
      obtain ⟨k2, w⟩ := kv
      by_cases hk : k2 = k
      · simp only [assocLookup, if_pos hk] at h
        simp only [assocLookup, List.cons_append, if_pos hk]
        exact h
      · simp only [assocLookup, if_neg hk] at h
        simp only [assocLookup, List.cons_append, if_neg hk]
        exact ih h

theorem assocLookup_update_self {dic : List (String × List String)} {k : String}
    {l : List String} (h : assocLookup dic k = some l) (v : String) :
    assocLookup (appendAt k v dic) k = some (l ++ [v]) := by
  induction dic with
  | nil => simp [assocLookup] at h
  | cons kv rest ih =>
      obtain ⟨k2, w⟩ := kv
      by_cases hk : k2 = k
      · subst hk
        simp only [assocLookup, if_pos rfl] at h
        injection h with h
        subst h
        simp [appendAt, assocLookup]
      · simp only [assocLookup, if_neg hk] at h
        simp only [appendAt, if_neg hk, assocLookup]
        exact ih h

theorem assocLookup_update_ne {dic : List (String × List String)} {k lab : String}
    (hne : lab ≠ k) (v : String) :
    assocLookup (appendAt k v dic) lab = assocLookup dic lab := by
  induction dic with
  | nil => simp [appendAt]
  | cons kv rest ih =>
      obtain ⟨k2, w⟩ := kv
      by_cases hk : k2 = k
      · subst hk
        have h2 : k2 ≠ lab := fun h => hne h.symm
        simp only [appendAt, if_pos rfl, assocLookup, if_neg h2]
      · by_cases h2 : k2 = lab
        · simp only [appendAt, if_neg hk, assocLookup, if_pos h2]
        · simp only [appendAt, if_neg hk, assocLookup, if_neg h2]
          exact ih

theorem safe_add_self (dic : List (String × List String)) (k v : String) :
    hasJust (safe_add dic k v) k := by
  unfold safe_add
  cases h : assocLookup dic k with
  | none =>
      refine ⟨[v], ?_, by simp⟩
      rw [assocLookup_append_none _ h]
      simp [assocLookup]
  | some l => exact ⟨l ++ [v], assocLookup_update_self h v, by simp⟩

theorem safe_add_mono {dic : List (String × List String)} {lab : String} (k v : String)
    (h : hasJust dic lab) : hasJust (safe_add dic k v) lab := by
  by_cases hk : lab = k
  · subst hk; exact safe_add_self dic lab v
  · obtain ⟨l, hl, hne⟩ := h
    unfold safe_add
    cases hlk : assocLookup dic k with
    | none => exact ⟨l, assocLookup_append_some _ hl, hne⟩
    | some l0 => exact ⟨l, by rw [assocLookup_update_ne hk v]; exact hl, hne⟩

/-! Each rule group emits codes drawn, in order, from a fixed block of
`ruleCodes`; mutually exclusive branches sit side by side in the block,
so each group's code list is a sublist of its block. -/

theorem rules_social_codes (p : ClientProfile) :
    List.Sublist ((rules_social p).map Prod.fst) ["social_plus", "social_basique", "social_premium"] := by
  unfold rules_social; split_ifs <;> decide

theorem rules_rse_codes (p : ClientProfile) :
    List.Sublist ((rules_rse p).map Prod.fst) ["rse_diag", "rse_reporting"] := by
  unfold rules_rse; split_ifs <;> decide

theorem rules_coaching_codes (p : ClientProfile) :
    List.Sublist ((rules_coaching p).map Prod.fst) ["coaching_light", "coaching_pro"] := by
  unfold rules_coaching; split_ifs <;> decide

theorem rules_patrimoine_codes (p : ClientProfile) :
    List.Sublist ((rules_patrimoine p).map Prod.fst) ["patrimoine_base", "patrimoine_avance"] := by
  unfold rules_patrimoine; split_ifs <;> decide

theorem rules_fiscal_codes (p : ClientProfile) :
    List.Sublist ((rules_fiscal p).map Prod.fst) ["fiscal_part", "international"] := by
  unfold rules_fiscal; split_ifs <;> decide

theorem rules_cash_codes (p : ClientProfile) :
    List.Sublist ((rules_cash p).map Prod.fst) ["tresorerie", "gestion_budget", "revue_qualite"] := by
  unfold rules_cash; split_ifs <;> decide

theorem rules_digital_codes (p : ClientProfile) :
    List.Sublist ((rules_digital p).map Prod.fst) ["digital_start", "digital_full"] := by
  unfold rules_digital; split_ifs <;> decide

theorem rules_secteur_codes (p : ClientProfile) :
    List.Sublist ((rules_secteur p).map Prod.fst) ["btp_pack"] := by
  unfold rules_secteur; split_ifs <;> decide

theorem rules_retraite_codes (p : ClientProfile) :
    List.Sublist ((rules_retraite p).map Prod.fst) ["retraite", "succession"] := by
  unfold rules_retraite; split_ifs <;> decide

theorem firedRules_codes_sublist (p : ClientProfile) :
    List.Sublist ((firedRules p).map Prod.fst) ruleCodes := by
  unfold firedRules
  simp only [List.map_append]
  exact ((((((((rules_social_codes p).append (rules_rse_codes p)).append
    (rules_coaching_codes p)).append (rules_patrimoine_codes p)).append
    (rules_fiscal_codes p)).append (rules_cash_codes p)).append
    (rules_digital_codes p)).append (rules_secteur_codes p)).append
    (rules_retraite_codes p)

theorem firedRules_codes_nodup (p : ClientProfile) :
    ((firedRules p).map Prod.fst).Nodup :=
  List.Nodup.sublist (firedRules_codes_sublist p) ruleCodes_nodup

/-! How `runRules` unfolds: offers accumulate as `entryOf` entries, every
accumulated offer keeps at least one justification under its label, and
the run succeeds whenever every emitted code is in the catalog. -/

theorem add_offer_some {st st2 : OfferState} {c r : String}
    (h : add_offer st c r = some st2) :
    ∃ info, assocLookup PRICING_TABLE c = some info ∧
      st2 = ⟨st.offers ++ [entryOf c], safe_add st.rationales info.libelle r⟩ ∧
      (entryOf c).libelle = info.libelle := by
  revert h
  unfold add_offer entryOf
  cases hl : assocLookup PRICING_TABLE c with
  | none => intro h; cases h
  | some info =>
      intro h
      injection h with h
      exact ⟨info, rfl, h.symm, rfl⟩

theorem runRules_offers : ∀ (rules : List (String × String)) (st st2 : OfferState),
    runRules rules st = some st2 →
    st2.offers = st.offers ++ rules.map (fun x => entryOf x.1) := by
  intro rules
  induction rules with
  | nil =>
      intro st st2 h
      injection h with h
      subst h; simp
  | cons x rest ih =>
      intro st st2 h
      obtain ⟨c, r⟩ := x
      unfold runRules at h
      cases ha : add_offer st c r with
      | none => rw [ha] at h; cases h
      | some st1 =>
          rw [ha] at h
          obtain ⟨info, hl, hst1, hlib⟩ := add_offer_some ha
          have ho := ih st1 st2 h
          rw [ho, hst1]
          simp

theorem runRules_hasJust : ∀ (rules : List (String × String)) (st st2 : OfferState),
    runRules rules st = some st2 →
    (∀ e ∈ st.offers, hasJust st.rationales e.libelle) →
    ∀ e ∈ st2.offers, hasJust st2.rationales e.libelle := by
  intro rules
  induction rules with
  | nil =>
      intro st st2 h hinv
      injection h with h
      subst h; exact hinv
  | cons x rest ih =>
      intro st st2 h hinv
      obtain ⟨c, r⟩ := x
      unfold runRules at h
      cases ha : add_offer st c r with
      | none => rw [ha] at h; cases h
      | some st1 =>
          rw [ha] at h
          obtain ⟨info, hl, hst1, hlib⟩ := add_offer_some ha
          apply ih st1 st2 h
          intro e he
          rw [hst1] at he ⊢
          rcases List.mem_append.mp he with h1 | h2
          · exact safe_add_mono info.libelle r (hinv e h1)
          · have he2 : e = entryOf c := by simpa using h2
            subst he2
            rw [hlib]
            exact safe_add_self st.rationales info.libelle r

theorem runRules_isSome : ∀ (rules : List (String × String)) (st : OfferState),
    (∀ x ∈ rules, (assocLookup PRICING_TABLE x.1).isSome) →
    (runRules rules st).isSome := by
  intro rules
  induction rules with
  | nil => intro st _; exact rfl
  | cons x rest ih =>
      intro st h
      obtain ⟨c, r⟩ := x
      have hc := h (c, r) (List.mem_cons_self _ _)
      unfold runRules
      cases ha : add_offer st c r with
      | none =>
          exfalso
          revert ha
          unfold add_offer
          cases hl : assocLookup PRICING_TABLE c with
          | none => rw [hl] at hc; cases hc
          | some info => intro ha; cases ha
      | some st1 => exact ih st1 (fun y hy => h y (List.mem_cons_of_mem _ hy))

theorem dedup_pass_id : ∀ (l : List OfferEntry) (seen : List String) (acc : List OfferEntry),
    (l.map (fun o => o.code)).Nodup → (∀ o ∈ l, o.code ∉ seen) →
    dedup_pass seen acc l = acc ++ l := by
  intro l
  induction l with
  | nil => intro seen acc _ _; simp [dedup_pass]
  | cons o rest ih =>
      intro seen acc hnd hni
      have hhead : o.code ∉ seen := hni o (List.mem_cons_self _ _)
      have hnd2 : (rest.map (fun o => o.code)).Nodup := by
        simp only [List.map_cons, List.nodup_cons] at hnd
        exact hnd.2
      have hne : o.code ∉ rest.map (fun o => o.code) := by
        simp only [List.map_cons, List.nodup_cons] at hnd
        exact hnd.1
      unfold dedup_pass
      rw [if_neg hhead]
      rw [ih (o.code :: seen) (acc ++ [o]) hnd2 ?_]
      · simp
      · intro e he
        simp only [List.mem_cons]
        rintro (h1 | h2)
        · exact hne (h1 ▸ List.mem_map_of_mem (fun o => o.code) he)
        · exact hni e (List.mem_cons_of_mem _ he) h2

/-- Composing the code projection with `entryOf` recovers the emitted
code itself. -/
theorem entryOf_comp_code :
    ((fun o : OfferEntry => o.code) ∘ fun x : String × String => entryOf x.1) = Prod.fst := by
  funext x
  exact entryOf_code x.1

/-- Prices of accumulated entries agree with the catalog prices of their
codes, even pointwise through the emitted-rule list. -/
theorem map_prix_entry (l : List (String × String)) :
    (l.map (fun x => entryOf x.1)).map (fun o => o.prix) =
      ((l.map (fun x => entryOf x.1)).map (fun o => o.code)).map catalogPrice := by
  induction l with
  | nil => rfl
  | cons x rest ih =>
      simp only [List.map_cons, List.cons.injEq]
      refine ⟨?_, ih⟩
      rw [entryOf_code, entryOf_prix]

/-- Workhorse characterisation of `compute_offers`: the run over the
fired rules succeeds, its raw offer list is `entryOf` of each emitted
code in order, the raw codes are already pairwise distinct (so the
deduplication pass keeps everything), every accumulated offer has a
recorded justification, and the returned record is built from that
state. -/
theorem compute_offers_spec (p : ClientProfile) :
    ∃ st : OfferState, runRules (firedRules p) ⟨[], []⟩ = some st ∧
      st.offers = (firedRules p).map (fun x => entryOf x.1) ∧
      (st.offers.map (fun o => o.code)).Nodup ∧
      (∀ e ∈ st.offers, hasJust st.rationales e.libelle) ∧
      compute_offers p = some ⟨st.offers, st.rationales, (st.offers.map (fun o => o.prix)).sum⟩ := by
  have hsome : (runRules (firedRules p) ⟨[], []⟩).isSome := by
    apply runRules_isSome
    intro x hx
    have hmem : x.1 ∈ ruleCodes :=
      (firedRules_codes_sublist p).subset (List.mem_map_of_mem Prod.fst hx)
    exact ruleCodes_in_table x.1 hmem
  obtain ⟨st, hst⟩ := Option.isSome_iff_exists.mp hsome
  have hoffers : st.offers = (firedRules p).map (fun x => entryOf x.1) := by
    have h := runRules_offers _ _ _ hst
    simpa using h
  have hcodes : (st.offers.map (fun o => o.code)).Nodup := by
    rw [hoffers, List.map_map, entryOf_comp_code]
    exact firedRules_codes_nodup p
  have hjust : ∀ e ∈ st.offers, hasJust st.rationales e.libelle := by
    apply runRules_hasJust _ _ _ hst
    intro e he
    simp at he
  have hded : dedup_pass [] [] st.offers = st.offers :=
    dedup_pass_id st.offers [] [] hcodes (fun o _ => List.not_mem_nil _)
  refine ⟨st, hst, hoffers, hcodes, hjust, ?_⟩
  unfold compute_offers
  rw [hst]
  simp [hded]

/-- The deduplicated code list equals the emitted code list, in rule
order. -/
theorem offersCodes_eq (p : ClientProfile) :
    offersCodes p = (firedRules p).map Prod.fst := by
  obtain ⟨st, hst, hoffers, hcodes, hjust, heq⟩ := compute_offers_spec p
  unfold offersCodes offerResultOf
  rw [heq]
  show st.offers.map (fun o => o.code) = _
  rw [hoffers, List.map_map, entryOf_comp_code]

/-- Claim C1: for every profile, the offer list returned by
`compute_offers` holds each code at most once (first occurrence wins, in
rule order), and `total_ht` is the exact sum, over that deduplicated
list, of the catalog prices of its codes. -/
theorem claim_C1_dedup_and_total (p : ClientProfile) :
    (offersCodes p).Nodup ∧
    (offerResultOf p).total_ht = ((offersCodes p).map catalogPrice).sum := by
  obtain ⟨st, hst, hoffers, hcodes, hjust, heq⟩ := compute_offers_spec p
  have hres : offerResultOf p =
      ⟨st.offers, st.rationales, (st.offers.map (fun o => o.prix)).sum⟩ := by
    unfold offerResultOf
    rw [heq]
    rfl
  constructor
  · unfold offersCodes
    rw [hres]
    exact hcodes
  · unfold offersCodes
    rw [hres]
    show (st.offers.map (fun o => o.prix)).sum = _
    rw [hoffers, map_prix_entry]

/-- Claim C2: `infer_segment` reports compliance intensity "Renforcée"
exactly when the sector is BTP, or there are at least 11 employees, or
"International" is among the fiscal particularities; otherwise it
reports "Standard". -/
theorem claim_C2_compliance_intensity (p : ClientProfile) :
    (infer_segment p).compliance_intensity =
      (if p.secteur = "BTP" ∨ 11 ≤ p.nb_salaries ∨ "International" ∈ p.particulier_fiscal
        then "Renforcée" else "Standard") := by
  show complianceIntensity p = _
  unfold complianceIntensity
  split_ifs <;> (simp_all; try omega)

/-- Claim C3: the segment label joins the tag list, and the tag list
holds exactly one size tag, chosen solely from the employee count and
the "Aucun salarié" contract type: zero employees or that contract type
gives the Solo tag, otherwise fewer than 11 employees gives the TPE tag,
otherwise the PME tag — mutually exclusive by the if-chain. -/
theorem claim_C3_single_size_tag (p : ClientProfile) :
    (infer_segment p).segment = String.intercalate " | " (segmentTags p) ∧
    (segmentTags p).filter (fun t => decide (t ∈ sizeLabels)) =
      [if p.nb_salaries = 0 ∨ p.type_contrats = "Aucun salarié" then "Solo/Très petite structure"
        else if p.nb_salaries < 11 then "TPE < 11" else "PME ≥ 11"] := by
  constructor
  · have hne : segmentTags p ≠ [] := by
      unfold segmentTags
      split_ifs <;> simp
    show (if segmentTags p = [] then "Standard"
      else String.intercalate " | " (segmentTags p)) = _
    rw [if_neg hne]
  · unfold segmentTags
    split_ifs <;> rfl

/-- Claim C4: the offers "gestion_budget" and "revue_qualite" are
recommended to every profile, whatever every other field holds. -/
theorem claim_C4_unconditional_offers (p : ClientProfile) :
    "gestion_budget" ∈ offersCodes p ∧ "revue_qualite" ∈ offersCodes p := by
  rw [offersCodes_eq]
  unfold firedRules
  simp only [List.map_append, List.mem_append]
  have h1 : "gestion_budget" ∈ (rules_cash p).map Prod.fst := by
    unfold rules_cash
    split_ifs <;> decide
  have h2 : "revue_qualite" ∈ (rules_cash p).map Prod.fst := by
    unfold rules_cash
    split_ifs <;> decide
  exact ⟨by tauto, by tauto⟩

/-- Claim C5: the returned offer list holds at most one code of each
exclusive pair — never both "social_basique" and "social_plus", never
both "coaching_light" and "coaching_pro", never both "digital_start" and
"digital_full". -/
theorem claim_C5_exclusive_pairs (p : ClientProfile) :
    (offersCodes p).countP inSocialPair ≤ 1 ∧
    (offersCodes p).countP inCoachingPair ≤ 1 ∧
    (offersCodes p).countP inDigitalPair ≤ 1 := by
  rw [offersCodes_eq]
  unfold firedRules
  simp only [List.map_append, List.countP_append]
  refine ⟨?_, ?_, ?_⟩
  · have h1 : ((rules_social p).map Prod.fst).countP inSocialPair ≤ 1 := by
      unfold rules_social
      split_ifs <;> decide
    have h2 : ((rules_rse p).map Prod.fst).countP inSocialPair ≤ 0 :=
      le_trans ((rules_rse_codes p).countP_le _) (by decide)
    have h3 : ((rules_coaching p).map Prod.fst).countP inSocialPair ≤ 0 :=
      le_trans ((rules_coaching_codes p).countP_le _) (by decide)
    have h4 : ((rules_patrimoine p).map Prod.fst).countP inSocialPair ≤ 0 :=
      le_trans ((rules_patrimoine_codes p).countP_le _) (by decide)
    have h5 : ((rules_fiscal p).map Prod.fst).countP inSocialPair ≤ 0 :=
      le_trans ((rules_fiscal_codes p).countP_le _) (by decide)
    have h6 : ((rules_cash p).map Prod.fst).countP inSocialPair ≤ 0 :=
      le_trans ((rules_cash_codes p).countP_le _) (by decide)
    have h7 : ((rules_digital p).map Prod.fst).countP inSocialPair ≤ 0 :=
      le_trans ((rules_digital_codes p).countP_le _) (by decide)
    have h8 : ((rules_secteur p).map Prod.fst).countP inSocialPair ≤ 0 :=
      le_trans ((rules_secteur_codes p).countP_le _) (by decide)
    have h9 : ((rules_retraite p).map Prod.fst).countP inSocialPair ≤ 0 :=
      le_trans ((rules_retraite_codes p).countP_le _) (by decide)
    omega
  · have h1 : ((rules_coaching p).map Prod.fst).countP inCoachingPair ≤ 1 := by
      unfold rules_coaching
      split_ifs with hA hB
      · exact absurd (hA.2.symm.trans hB.2) (by decide)
      · decide
      · decide
      · decide
    have h2 : ((rules_social p).map Prod.fst).countP inCoachingPair ≤ 0 :=
      le_trans ((rules_social_codes p).countP_le _) (by decide)
    have h3 : ((rules_rse p).map Prod.fst).countP inCoachingPair ≤ 0 :=
      le_trans ((rules_rse_codes p).countP_le _) (by decide)
    have h4 : ((rules_patrimoine p).map Prod.fst).countP inCoachingPair ≤ 0 :=
      le_trans ((rules_patrimoine_codes p).countP_le _) (by decide)
    have h5 : ((rules_fiscal p).map Prod.fst).countP inCoachingPair ≤ 0 :=
      le_trans ((rules_fiscal_codes p).countP_le _) (by decide)
    have h6 : ((rules_cash p).map Prod.fst).countP inCoachingPair ≤ 0 :=
      le_trans ((rules_cash_codes p).countP_le _) (by decide)
    have h7 : ((rules_digital p).map Prod.fst).countP inCoachingPair ≤ 0 :=
      le_trans ((rules_digital_codes p).countP_le _) (by decide)
    have h8 : ((rules_secteur p).map Prod.fst).countP inCoachingPair ≤ 0 :=
      le_trans ((rules_secteur_codes p).countP_le _) (by decide)
    have h9 : ((rules_retraite p).map Prod.fst).countP inCoachingPair ≤ 0 :=
      le_trans ((rules_retraite_codes p).countP_le _) (by decide)
    omega
  · have h1 : ((rules_digital p).map Prod.fst).countP inDigitalPair ≤ 1 := by
      unfold rules_digital
      split_ifs <;> decide
    have h2 : ((rules_social p).map Prod.fst).countP inDigitalPair ≤ 0 :=
      le_trans ((rules_social_codes p).countP_le _) (by decide)
    have h3 : ((rules_rse p).map Prod.fst).countP inDigitalPair ≤ 0 :=
      le_trans ((rules_rse_codes p).countP_le _) (by decide)
    have h4 : ((rules_coaching p).map Prod.fst).countP inDigitalPair ≤ 0 :=
      le_trans ((rules_coaching_codes p).countP_le _) (by decide)
    have h5 : ((rules_patrimoine p).map Prod.fst).countP inDigitalPair ≤ 0 :=
      le_trans ((rules_patrimoine_codes p).countP_le _) (by decide)
    have h6 : ((rules_fiscal p).map Prod.fst).countP inDigitalPair ≤ 0 :=
      le_trans ((rules_fiscal_codes p).countP_le _) (by decide)
    have h7 : ((rules_cash p).map Prod.fst).countP inDigitalPair ≤ 0 :=
      le_trans ((rules_cash_codes p).countP_le _) (by decide)
    have h8 : ((rules_secteur p).map Prod.fst).countP inDigitalPair ≤ 0 :=
      le_trans ((rules_secteur_codes p).countP_le _) (by decide)
    have h9 : ((rules_retraite p).map Prod.fst).countP inDigitalPair ≤ 0 :=
      le_trans ((rules_retraite_codes p).countP_le _) (by decide)
    omega

/-- Claim C6: on the Scenario A profile (0 employees, sector Services,
all toggles off, empty fiscal set, low pollution, modest wealth, distant
retirement, rudimentary digitalisation) the segment is "Solo/Très petite
structure" and the offers are exactly gestion_budget, revue_qualite and
digital_full, totalling 940. -/
theorem claim_C6_scenario_A :
    (infer_segment profileA).segment = "Solo/Très petite structure" ∧
    (compute_offers profileA).map
        (fun r => (r.offers.map (fun o => o.code), r.total_ht)) =
      some (["gestion_budget", "revue_qualite", "digital_full"], 940) := by
  decide

/-- Claim C7: every offer of the returned deduplicated list has at least
one justification recorded in the rationale mapping under its display
label. -/
theorem claim_C7_rationale_completeness (p : ClientProfile) :
    ((offerResultOf p).offers.all
      (fun e => !((assocLookup (offerResultOf p).rationales e.libelle).getD []).isEmpty)) = true := by
  obtain ⟨st, hst, hoffers, hcodes, hjust, heq⟩ := compute_offers_spec p
  have hres : offerResultOf p =
      ⟨st.offers, st.rationales, (st.offers.map (fun o => o.prix)).sum⟩ := by
    unfold offerResultOf
    rw [heq]
    rfl
  rw [hres]
  rw [List.all_eq_true]
  intro e he
  obtain ⟨l, hl, hlne⟩ := hjust e he
  show (!((assocLookup st.rationales e.libelle).getD []).isEmpty) = true
  rw [hl]
  cases l with
  | nil => exact absurd rfl hlne
  | cons a as => rfl

/-- Claim C8: every catalog lookup of the offer engine uses a code that
the shipped `PRICING_TABLE` holds, so the lookup-failure branch is
unreachable and `compute_offers` returns a result for every well-formed
profile. -/
theorem claim_C8_lookups_total (p : ClientProfile) :
    ((firedRules p).all (fun x => (assocLookup PRICING_TABLE x.1).isSome)) = true ∧
    (compute_offers p).isSome = true := by
  constructor
  · rw [List.all_eq_true]
    intro x hx
    exact ruleCodes_in_table x.1
      ((firedRules_codes_sublist p).subset (List.mem_map_of_mem Prod.fst hx))
  · obtain ⟨st, hst, hoffers, hcodes, hjust, heq⟩ := compute_offers_spec p
    rw [heq]
    rfl

/-- Claim C9: both engines are deterministic — two calls on equal
profiles (with the fixed catalog) return equal results. -/
theorem claim_C9_deterministic (p q : ClientProfile) (h : p = q) :
    infer_segment p = infer_segment q ∧ compute_offers p = compute_offers q := by
  subst h
  exact ⟨rfl, rfl⟩

/-- Witness for claim C9 at the Scenario A profile. -/
theorem claim_C9_deterministic_witness :
    infer_segment profileA = infer_segment profileA ∧
    compute_offers profileA = compute_offers profileA :=
  claim_C9_deterministic profileA profileA rfl

/-- Claim C10: the raw (pre-deduplication) offer list already has
pairwise-distinct codes — each rule fires at most once and emits its own
code — so the deduplication pass is the identity and `compute_offers`
equals the variant that returns the raw list with the total summed over
it. -/
theorem claim_C10_dedup_identity (p : ClientProfile) :
    (((compute_offers_raw p).getD ⟨[], [], 0⟩).offers.map (fun o => o.code)).Nodup ∧
    compute_offers p = compute_offers_raw p := by
  obtain ⟨st, hst, hoffers, hcodes, hjust, heq⟩ := compute_offers_spec p
  have hraw : compute_offers_raw p =
      some ⟨st.offers, st.rationales, (st.offers.map (fun o => o.prix)).sum⟩ := by
    unfold compute_offers_raw
    rw [hst]
  constructor
  · rw [hraw]
    exact hcodes
  · rw [heq, hraw]

end ArbreDecision
